import Mathlib

/-!
Verification of the go-webvtt WebVTT parser (`webvtt.go`).

Strings are modelled as `List Char` (`Str`); Go's `int` / `time.Duration`
are modelled as mathematical integers reduced into the signed 64-bit range
where the Go code performs 64-bit arithmetic (`wrap64`).  All definitions
are direct translations of the corresponding Go functions; line numbers in
doc comments refer to `webvtt.go`.
-/

namespace WebVTT

/-- Go strings, modelled as lists of characters. -/
abbrev Str := List Char

/-- `unicode.IsSpace` (the predicate behind `strings.TrimSpace` and
`strings.Fields`): Unicode white space. -/
def goIsSpace (c : Char) : Bool :=
  c = ' ' || c = '\t' || c = '\n' || c = '\u000B' || c = '\u000C' || c = '\r' ||
  c = '\u0085' || c = '\u00A0' || c = '\u1680' ||
  ('\u2000' ≤ c && c ≤ '\u200A') || c = '\u2028' || c = '\u2029' ||
  c = '\u202F' || c = '\u205F' || c = '\u3000'

/-- RE2's `\s` character class: `[\t\n\f\r ]`. -/
def re2Space (c : Char) : Bool :=
  c = '\t' || c = '\n' || c = '\u000C' || c = '\r' || c = ' '

/-- Decimal digit test (`\d` in the regular expressions, and the digit
check inside `strconv.Atoi`). -/
def isDigit (c : Char) : Bool := '0' ≤ c && c ≤ '9'

/-- Drop leading characters satisfying `goIsSpace`. -/
def dropLeadingSpace : Str → Str
  | [] => []
  | c :: cs => if goIsSpace c then dropLeadingSpace cs else c :: cs

/-- `strings.TrimSpace`: remove leading and trailing white space. -/
def trimSpace (cs : Str) : Str :=
  (dropLeadingSpace (dropLeadingSpace cs).reverse).reverse

/-- `strings.HasPrefix s pat` / `strings.CutPrefix` test. -/
def startsWithL : Str → Str → Bool
  | _, [] => true
  | [], _ :: _ => false
  | c :: cs, p :: ps => c = p && startsWithL cs ps

/-- `strings.Split s sep` for a one-character separator: always returns a
non-empty list of the separator-free pieces. -/
def splitOnChar (sep : Char) : Str → List Str
  | [] => [[]]
  | c :: cs =>
    match splitOnChar sep cs with
    | x :: xs => if c = sep then [] :: x :: xs else (c :: x) :: xs
    | [] => [[c]]

/-- First occurrence split: `strings.SplitN s pat 2` returns two pieces
(`some (before, after)`) when `pat` occurs in `s`, otherwise one piece
(`none`).  Also models `strings.Index` (the `before` length). -/
def splitAtSub (pat : Str) : Str → Option (Str × Str)
  | [] => if pat = [] then some ([], []) else none
  | c :: cs =>
    if startsWithL (c :: cs) pat then some ([], List.drop pat.length (c :: cs))
    else
      match splitAtSub pat cs with
      | some (a, b) => some (c :: a, b)
      | none => none

/-- `strings.Index pat s`: index of the first occurrence of `pat` in `s`. -/
def subIndex (pat : Str) : Str → Option Nat
  | [] => if pat = [] then some 0 else none
  | c :: cs =>
    if startsWithL (c :: cs) pat then some 0
    else (subIndex pat cs).map (· + 1)

/-- Accumulator loop of `strings.Fields`. -/
def fieldsAux : Str → Str → List Str
  | [], cur => if cur = [] then [] else [cur.reverse]
  | c :: cs, cur =>
    if goIsSpace c then
      if cur = [] then fieldsAux cs [] else cur.reverse :: fieldsAux cs []
    else fieldsAux cs (c :: cur)

/-- `strings.Fields`: split around runs of white space, no empty fields. -/
def fields (s : Str) : List Str := fieldsAux s []

/-- `strings.Join ls "\n"` (used for NOTE/STYLE bodies and cue text). -/
def joinLines : List Str → Str
  | [] => []
  | [l] => l
  | l :: ls => l ++ '\n' :: joinLines ls

/-- `text[i:j]` on a Go string (byte slicing; our model is per character). -/
def sliceStr (cs : Str) (i j : Nat) : Str := List.take (j - i) (List.drop i cs)

/-! ## Integer parsing and 64-bit duration arithmetic -/

/-- Digit-accumulation loop of `strconv.ParseUint` (base 10): `none` as
soon as a non-digit appears. -/
def digitsValAux : Str → Nat → Option Nat
  | [], acc => some acc
  | c :: cs, acc =>
    if isDigit c then digitsValAux cs (acc * 10 + (c.toNat - '0'.toNat))
    else none

/-- Largest value of Go's `int` (64-bit). -/
def int64Max : Int := 2 ^ 63 - 1

/-- Smallest value of Go's `int` (64-bit). -/
def int64Min : Int := -(2 ^ 63)

/-- Error values produced by the parser.  The Go code uses `errors.New` /
`fmt.Errorf`; each distinct message (and the two `strconv` error kinds) is
one constructor, and the `invalid start/end timestamp: %w` wrappers keep
the wrapped error. -/
inductive Err where
  | emptyInput
  | missingHeader
  | missingTimestampLine
  | invalidTimestampLine
  | missingEndTimestamp
  | invalidTimestampFormat
  | atoiSyntax
  | atoiRange
  | invalidStartTimestamp (e : Err)
  | invalidEndTimestamp (e : Err)
deriving DecidableEq, Repr

/-- `strconv.Atoi`: optional sign, one or more decimal digits, value
required to fit in a signed 64-bit `int` (otherwise `ErrRange`). -/
def atoi (s : Str) : Except Err Int :=
  let signAndDigits : Bool × Str :=
    match s with
    | '+' :: r => (false, r)
    | '-' :: r => (true, r)
    | _ => (false, s)
  match signAndDigits with
  | (neg, ds) =>
    if ds = [] then .error .atoiSyntax
    else
      match digitsValAux ds 0 with
      | none => .error .atoiSyntax
      | some n =>
        let v : Int := if neg then -(n : Int) else (n : Int)
        if v < int64Min ∨ int64Max < v then .error .atoiRange else .ok v

/-- Reduce an integer into the signed 64-bit range, as every Go `int64` /
`time.Duration` arithmetic operation does (two's-complement wraparound). -/
def wrap64 (x : Int) : Int := (x + 2 ^ 63) % 2 ^ 64 - 2 ^ 63

/-- The final duration expression of `parseTimestamp` (lines 356-359):
`Duration(hours)*Hour + Duration(minutes)*Minute + Duration(seconds)*Second
+ Duration(millis)*Millisecond`, evaluated left to right in wrapping
64-bit arithmetic, in nanoseconds. -/
def durNs (hours minutes seconds millis : Int) : Int :=
  wrap64 (wrap64 (wrap64 (wrap64 (hours * 3600000000000) +
    wrap64 (minutes * 60000000000)) + wrap64 (seconds * 1000000000)) +
    wrap64 (millis * 1000000))

/-- The exact (unbounded) value of the duration formula, in nanoseconds. -/
def exactNs (p : Int × Int × Int × Int) : Int :=
  p.1 * 3600000000000 + p.2.1 * 60000000000 + p.2.2.1 * 1000000000 + p.2.2.2 * 1000000

/-- Component-gathering part of `parseTimestamp` (lines 308-354): split on
`":"`; 3 parts is `HH:MM:SS.mmm`, 2 parts is `MM:SS.mmm`, anything else is
the `invalid timestamp format` error; the seconds part is split on `"."`
and its optional second piece is the millisecond count; every component
goes through `strconv.Atoi`, whose error is returned as-is. -/
def parseTimestampComponents (s : Str) : Except Err (Int × Int × Int × Int) :=
  match splitOnChar ':' s with
  | [p0, p1, p2] =>
    match atoi p0 with
    | .error e => .error e
    | .ok hours =>
      match atoi p1 with
      | .error e => .error e
      | .ok minutes =>
        match splitOnChar '.' p2 with
        | [] => .error .atoiSyntax
        | sp0 :: sps =>
          match atoi sp0 with
          | .error e => .error e
          | .ok seconds =>
            match sps with
            | [] => .ok (hours, minutes, seconds, 0)
            | sp1 :: _ =>
              match atoi sp1 with
              | .error e => .error e
              | .ok millis => .ok (hours, minutes, seconds, millis)
  | [p0, p1] =>
    match atoi p0 with
    | .error e => .error e
    | .ok minutes =>
      match splitOnChar '.' p1 with
      | [] => .error .atoiSyntax
      | sp0 :: sps =>
        match atoi sp0 with
        | .error e => .error e
        | .ok seconds =>
          match sps with
          | [] => .ok (0, minutes, seconds, 0)
          | sp1 :: _ =>
            match atoi sp1 with
            | .error e => .error e
            | .ok millis => .ok (0, minutes, seconds, millis)
  | _ => .error .invalidTimestampFormat

/-- `parseTimestamp` (lines 308-360): gather the numeric components, then
return the duration built by the final wrapping arithmetic expression. -/
def parseTimestamp (s : Str) : Except Err Int :=
  match parseTimestampComponents s with
  | .error e => .error e
  | .ok (h, m, sec, ms) => .ok (durNs h m sec ms)

/-! ## Timestamp line: `timestampLineRegex` and `parseTimestampLine` -/

/-- Match `\d{2}:\d{2}\.\d{3}` at the head of `s`, returning the rest. -/
def matchTSCore : Str → Option Str
  | a :: b :: ':' :: c :: d :: '.' :: e :: f :: g :: rest =>
    if isDigit a && isDigit b && isDigit c && isDigit d &&
       isDigit e && isDigit f && isDigit g then some rest else none
  | _ => none

/-- All ways `(\d{1,2}:)?\d{2}:\d{2}\.\d{3}` can match at the head of `s`
(the optional hour group with two digits, with one digit, or absent),
as the list of possible rests. -/
def matchTSOpts (s : Str) : List Str :=
  (match s with
   | a :: b :: ':' :: rest =>
     if isDigit a && isDigit b then (matchTSCore rest).toList else []
   | _ => []) ++
  (match s with
   | a :: ':' :: rest => if isDigit a then (matchTSCore rest).toList else []
   | _ => []) ++
  (matchTSCore s).toList

/-- Drop leading RE2 white space. -/
def dropWhileRe2 : Str → Str
  | [] => []
  | c :: cs => if re2Space c then dropWhileRe2 cs else c :: cs

/-- `\s+`: at least one RE2 space, then (greedily) all following spaces.
The next literal in the regular expression is never a space, so taking
the maximal run is equivalent to full backtracking. -/
def skipWs1 : Str → Option Str
  | [] => none
  | c :: cs => if re2Space c then some (dropWhileRe2 cs) else none

/-- Continuation of `timestampLineRegex` after the first timestamp:
`\s+-->\s+` followed by the second timestamp pattern. -/
def matchArrowTail (s : Str) : Bool :=
  match skipWs1 s with
  | none => false
  | some s1 =>
    match s1 with
    | '-' :: '-' :: '>' :: s2 =>
      (match skipWs1 s2 with
       | none => false
       | some s3 => matchTSOpts s3 ≠ [])
    | _ => false

/-- `timestampLineRegex.MatchString` (line 86): the pattern
`^(\d{1,2}:)?\d{2}:\d{2}\.\d{3}\s+-->\s+(\d{1,2}:)?\d{2}:\d{2}\.\d{3}` is
anchored at the start and leaves trailing text unconstrained. -/
def matchesTimestampLine (line : Str) : Bool :=
  (matchTSOpts line).any matchArrowTail

/-- `CueSettings` (lines 47-54); Go zero value is six empty strings. -/
structure CueSettings where
  vertical : Str := []
  line : Str := []
  position : Str := []
  size : Str := []
  align : Str := []
  region : Str := []
deriving DecidableEq, Repr

/-- One iteration of the settings loop (lines 284-303): split a token at
its first `":"`; a token with no colon, an empty key, or an unrecognized
key is ignored. -/
def applySetting (st : CueSettings) (tok : Str) : CueSettings :=
  match splitAtSub [':'] tok with
  | none => st
  | some (key, value) =>
    if key = [] then st
    else if key = "vertical".data then { st with vertical := value }
    else if key = "line".data then { st with line := value }
    else if key = "position".data then { st with position := value }
    else if key = "size".data then { st with size := value }
    else if key = "align".data then { st with align := value }
    else if key = "region".data then { st with region := value }
    else st

/-- `parseTimestampLine` (lines 255-306): split once on `"-->"`, trim both
sides, the fields of the right side give the end timestamp and the setting
tokens. -/
def parseTimestampLine (line : Str) : Except Err (Int × Int × CueSettings) :=
  match splitAtSub "-->".data line with
  | none => .error .invalidTimestampLine
  | some (left, right) =>
    let startStr := trimSpace left
    let rest := trimSpace right
    match fields rest with
    | [] => .error .missingEndTimestamp
    | endStr :: settingToks =>
      match parseTimestamp startStr with
      | .error e => .error (.invalidStartTimestamp e)
      | .ok startTime =>
        match parseTimestamp endStr with
        | .error e => .error (.invalidEndTimestamp e)
        | .ok endTime =>
          .ok (startTime, endTime, settingToks.foldl applySetting {})

/-! ## Voice-span extraction: `voiceStartRegex` and `parseVoices` -/

/-- A voice span (lines 57-60). -/
structure Voice where
  speaker : Str := []
  text : Str := []
deriving DecidableEq, Repr

/-- Count the leading characters satisfying `p`. -/
def countWhile (p : Char → Bool) : Str → Nat
  | [] => 0
  | c :: cs => if p c then countWhile p cs + 1 else 0

/-- Index of the first character satisfying `p`. -/
def findIdx? (p : Char → Bool) : Str → Option Nat
  | [] => none
  | c :: cs => if p c then some 0 else (findIdx? p cs).map (· + 1)

/-- Leftmost-first match of `voiceStartRegex` = `<v\s+([^>]+)>` (line 88)
at the head of `s`.  After `<v`, `\s+` greedily takes the maximal white
space run of length `w` (backtracking gives back at most down to one
space), `([^>]+)` then runs up to the first `>`, at index `g` of the text
after `<v`; a match needs `w ≥ 1` and a nonempty group, i.e. `g ≥ 2`.
Returns relative offsets `(name start, name end, match end)`. -/
def voiceMatchAt (s : Str) : Option (Nat × Nat × Nat) :=
  match s with
  | '<' :: 'v' :: rest =>
    let w := countWhile re2Space rest
    if w = 0 then none
    else
      match findIdx? (fun c => c = '>') (List.drop w rest) with
      | none => none
      | some g0 =>
        let g := w + g0
        if g < 2 then none
        else some (2 + min w (g - 1), 2 + g, 3 + g)
  | _ => none

/-- One regex match with absolute positions, as produced by
`FindAllStringSubmatchIndex`: `[mstart, mend, nstart, nend]`. -/
structure VMatch where
  mstart : Nat
  mend : Nat
  nstart : Nat
  nend : Nat
deriving DecidableEq, Repr

/-- Scan for all non-overlapping leftmost matches of `voiceStartRegex`,
resuming after each match.  The fuel argument bounds the number of scan
steps; each step consumes at least one character, so `s.length` suffices. -/
def findVoiceTagsFuel : Nat → Str → Nat → List VMatch
  | 0, _, _ => []
  | _, [], _ => []
  | fuel + 1, c :: cs, pos =>
    match voiceMatchAt (c :: cs) with
    | some (ns, ne, me) =>
      ⟨pos, pos + me, pos + ns, pos + ne⟩ ::
        findVoiceTagsFuel fuel (List.drop (me - 1) cs) (pos + me)
    | none => findVoiceTagsFuel fuel cs (pos + 1)

/-- `voiceStartRegex.FindAllStringSubmatchIndex text -1` (line 366). -/
def findVoiceTags (s : Str) (pos : Nat) : List VMatch :=
  findVoiceTagsFuel s.length s pos

/-- `"</v>"`. -/
def closeTag : Str := ['<', '/', 'v', '>']

/-- `voices[len(voices)-1].Text += " " + pfx` (line 379). -/
def appendToLast : List Voice → Str → List Voice
  | [], _ => []
  | [v], p => [{ v with text := v.text ++ ' ' :: p }]
  | v :: vs, p => v :: appendToLast vs p

/-- Stray-text handling at the head of each loop iteration of
`parseVoices` (lines 374-383): text strictly between the previous span end
and this match, trimmed; when non-blank it is appended to the last voice,
or becomes an anonymous voice when no voice exists yet. -/
def voicesPre (cs : Str) (m : VMatch) (lastEnd : Nat) (acc : List Voice) :
    List Voice :=
  if lastEnd < m.mstart then
    let pfx := trimSpace (sliceStr cs lastEnd m.mstart)
    if pfx ≠ [] ∧ acc ≠ [] then appendToLast acc pfx
    else if pfx ≠ [] then acc ++ [{ speaker := [], text := pfx }]
    else acc
  else acc

/-- Main loop of `parseVoices` (lines 372-411): for each match, handle
stray text, then take the span up to the next match (or end of text); a
`</v>` inside the span cuts the text there and scanning resumes after it. -/
def voicesLoop (cs : Str) : List VMatch → Nat → List Voice → List Voice
  | [], _, acc => acc
  | m :: rest, lastEnd, acc =>
    let acc1 := voicesPre cs m lastEnd acc
    let spanEnd := match rest with
      | m2 :: _ => m2.mstart
      | [] => cs.length
    let vtext := sliceStr cs m.mend spanEnd
    match subIndex closeTag vtext with
    | some idx =>
      voicesLoop cs rest (m.mend + idx + 4)
        (acc1 ++ [⟨sliceStr cs m.nstart m.nend, trimSpace (List.take idx vtext)⟩])
    | none =>
      voicesLoop cs rest (m.mend + vtext.length)
        (acc1 ++ [⟨sliceStr cs m.nstart m.nend, trimSpace vtext⟩])

/-- `parseVoices` (lines 362-414): with no voice tag the whole text is one
anonymous voice, verbatim; otherwise run the match loop. -/
def parseVoices (text : Str) : List Voice :=
  match findVoiceTags text 0 with
  | [] => [{ speaker := [], text := text }]
  | m :: ms => voicesLoop text (m :: ms) 0 []

/-! ## Blocks: `parseCue`, `parseBlock`, `Parse`, `ParseAll` -/

/-- A cue (lines 36-42); times are `time.Duration` nanosecond values. -/
structure Cue where
  id : Str := []
  startTime : Int := 0
  endTime : Int := 0
  settings : CueSettings := {}
  voices : List Voice := []
deriving DecidableEq, Repr

/-- The closed union of WebVTT block variants (lines 26-82). -/
inductive Block where
  | cue (c : Cue)
  | note (text : Str)
  | style (text : Str)
  | region (id : Str) (settings : List (Str × Str))
deriving DecidableEq, Repr

/-- Map update on an association list (Go `map[string]string` insert):
overwrite the value of an existing key, otherwise add the entry. -/
def setAssoc : List (Str × Str) → Str → Str → List (Str × Str)
  | [], k, v => [(k, v)]
  | (k', v') :: rest, k, v =>
    if k' = k then (k', v) :: rest else (k', v') :: setAssoc rest k v

/-- One iteration of the REGION settings loop (lines 200-213): skip lines
equal to `REGION`; split at the first `":"` (needing a nonempty key); key
`id` sets the identifier, any other key updates the settings map. -/
def regionStep (acc : Str × List (Str × Str)) (line : Str) :
    Str × List (Str × Str) :=
  if line = "REGION".data then acc
  else
    match splitAtSub [':'] line with
    | none => acc
    | some (k, v) =>
      if k = [] then acc
      else
        let key := trimSpace k
        let value := trimSpace v
        if key = "id".data then (value, acc.2)
        else (acc.1, setAssoc acc.2 key value)

/-- REGION block builder (lines 191-215): when the first line is exactly
`REGION` the settings start at the next line, otherwise at the first line. -/
def parseRegion (first : Str) (restLines : List Str) : Block :=
  let ls := if first = "REGION".data then restLines else first :: restLines
  let r := ls.foldl regionStep ([], [])
  .region r.1 r.2

/-- NOTE block text (lines 177-183): the trimmed remainder of the first
line after `NOTE`, then the remaining lines newline-joined, the whole
trimmed again. -/
def noteText (first : Str) (restLines : List Str) : Str :=
  let t0 := trimSpace (List.drop 4 first)
  let t := if restLines = [] then t0 else t0 ++ '\n' :: joinLines restLines
  trimSpace t

/-- `parseCue` (lines 221-253): a first line that does not match the
timestamp-line pattern is the cue identifier; the next line is required
and is decoded as the timestamp line; all remaining lines newline-joined
feed the voice extractor (a cue with no remaining lines has no voices). -/
def parseCue (first : Str) (rest : List Str) : Except Err Cue :=
  let idAndRest : Str × List Str :=
    if matchesTimestampLine first then ([], first :: rest) else (first, rest)
  match idAndRest with
  | (cueId, tsLines) =>
    match tsLines with
    | [] => .error .missingTimestampLine
    | tsLine :: textLines =>
      match parseTimestampLine tsLine with
      | .error e => .error e
      | .ok (s, e, st) =>
        let voices := match textLines with
          | [] => []
          | _ => parseVoices (joinLines textLines)
        .ok { id := cueId, startTime := s, endTime := e,
              settings := st, voices := voices }

/-- `parseBlock` (lines 169-219): dispatch on the first line of a group;
an empty group yields nothing (Go returns `nil, nil`). -/
def parseBlock (lines : List Str) : Option (Except Err Block) :=
  match lines with
  | [] => none
  | first :: restLines =>
    if startsWithL first "NOTE".data then
      some (.ok (.note (noteText first restLines)))
    else if first = "STYLE".data then
      some (.ok (.style (joinLines restLines)))
    else if first = "REGION".data ∨ startsWithL first "REGION".data then
      some (.ok (parseRegion first restLines))
    else
      match parseCue first restLines with
      | .error e => some (.error e)
      | .ok c => some (.ok (.cue c))

/-- The item(s) the scanner emits for a flushed group (lines 118-127):
the error, or the block, or nothing for a `nil` block. -/
def emitBlock (lines : List Str) : List (Except Err Block) :=
  match parseBlock lines with
  | some (.error e) => [.error e]
  | some (.ok b) => [.ok b]
  | none => []

/-- Scanner body after the header (lines 111-147): accumulate non-blank
lines; a blank line flushes the non-empty current group; end of input
flushes the pending group. -/
def scanBody : List Str → List Str → List (Except Err Block)
  | [], cur => if cur = [] then [] else emitBlock cur
  | l :: rest, cur =>
    if l = [] then
      if cur = [] then scanBody rest []
      else emitBlock cur ++ scanBody rest []
    else scanBody rest (cur ++ [l])

/-- `Parse` (lines 92-153) on an already line-split, error-free reader:
the emitted `(Block, error)` sequence under a consumer that keeps pulling.
No first line is the `empty input` error; a first line not starting with
`WEBVTT` is the `missing WEBVTT header` error, terminating immediately. -/
def Parse (input : List Str) : List (Except Err Block) :=
  match input with
  | [] => [.error .emptyInput]
  | header :: rest =>
    if startsWithL header "WEBVTT".data then scanBody rest []
    else [.error .missingHeader]

/-- Fold of `ParseAll` (lines 156-167): stop at the first error with no
cues; otherwise collect the cue blocks in order. -/
def collectCues : List (Except Err Block) → Except Err (List Cue)
  | [] => .ok []
  | .error e :: _ => .error e
  | .ok b :: rest =>
    match collectCues rest with
    | .error e => .error e
    | .ok cs => .ok (match b with | .cue c => c :: cs | _ => cs)

/-- `ParseAll` (lines 156-167). -/
def ParseAll (input : List Str) : Except Err (List Cue) :=
  collectCues (Parse input)

/-- `true` on error items of the parse stream. -/
def isErr : Except Err Block → Bool
  | .error _ => true
  | .ok _ => false

/-- The cue blocks of a parse stream, in order. -/
def cuesOf (items : List (Except Err Block)) : List Cue :=
  items.filterMap fun x =>
    match x with
    | .ok (.cue c) => some c
    | _ => none

/-! ## Helper lemmas -/

theorem splitOnChar_ne_nil (c : Char) (s : Str) : splitOnChar c s ≠ [] := by
  induction s with
  | nil => simp [splitOnChar]
  | cons d cs ih =>
    simp only [splitOnChar]
    cases h : splitOnChar c cs with
    | nil => exact absurd h ih
    | cons x xs => by_cases hd : d = c <;> simp [hd]

theorem splitOnChar_not_mem {c : Char} {s : Str} (h : c ∉ s) :
    splitOnChar c s = [s] := by
  induction s with
  | nil => rfl
  | cons d cs ih =>
    have hd : ¬d = c := fun hh => h (hh ▸ List.mem_cons_self d cs)
    have hcs := ih (fun hm => h (List.mem_cons_of_mem d hm))
    simp [splitOnChar, hcs, hd]

theorem splitOnChar_append {c : Char} {xs : Str} (ys : Str) (h : c ∉ xs) :
    splitOnChar c (xs ++ c :: ys) = xs :: splitOnChar c ys := by
  induction xs with
  | nil =>
    simp only [List.nil_append, splitOnChar]
    cases hr : splitOnChar c ys with
    | nil => exact absurd hr (splitOnChar_ne_nil c ys)
    | cons z zs => simp
  | cons d ds ih =>
    have hd : ¬d = c := fun hh => h (hh ▸ List.mem_cons_self d ds)
    have hds := ih (fun hm => h (List.mem_cons_of_mem d hm))
    simp [splitOnChar, hds, hd]

theorem not_mem_of_all_digits {c : Char} {s : Str} (hc : isDigit c = false)
    (h : ∀ x ∈ s, isDigit x = true) : c ∉ s :=
  fun hm => by simp [h c hm] at hc

theorem atoi_digits {ds : Str} {n : Nat} (hne : ds ≠ [])
    (hall : ∀ x ∈ ds, isDigit x = true) (hval : digitsValAux ds 0 = some n)
    (hrange : (n : Int) ≤ int64Max) : atoi ds = .ok (n : Int) := by
  unfold atoi
  split
  · exact absurd (hall '+' (List.mem_cons_self _ _)) (by decide)
  · exact absurd (hall '-' (List.mem_cons_self _ _)) (by decide)
  · have h1 : ¬((n : Int) < int64Min ∨ int64Max < (n : Int)) := by
      simp only [int64Min, int64Max] at *
      omega
    simp [hne, hval, h1]

theorem wrap64_add_left (a b : Int) : wrap64 (wrap64 a + b) = wrap64 (a + b) := by
  unfold wrap64; omega

theorem wrap64_add_right (a b : Int) : wrap64 (a + wrap64 b) = wrap64 (a + b) := by
  unfold wrap64; omega

theorem durNs_wrap (h m s ms : Int) :
    durNs h m s ms = wrap64 (exactNs (h, m, s, ms)) := by
  simp only [durNs, exactNs, wrap64_add_left, wrap64_add_right]

/-- General acceptance on the two-component path: for any nonempty decimal
digit sequences `m`, `s`, `ms` whose values fit in `int64`, the decoder
accepts `m:s.ms` with no digit-count constraint. -/
theorem parseTimestamp_two {m s ms : Str} {vm vs vms : Nat}
    (hm : m ≠ []) (hs : s ≠ []) (hms : ms ≠ [])
    (hmd : ∀ c ∈ m, isDigit c = true) (hsd : ∀ c ∈ s, isDigit c = true)
    (hmsd : ∀ c ∈ ms, isDigit c = true)
    (hv1 : digitsValAux m 0 = some vm) (hv2 : digitsValAux s 0 = some vs)
    (hv3 : digitsValAux ms 0 = some vms)
    (hr1 : (vm : Int) ≤ int64Max) (hr2 : (vs : Int) ≤ int64Max)
    (hr3 : (vms : Int) ≤ int64Max) :
    parseTimestamp (m ++ ':' :: (s ++ '.' :: ms)) =
      .ok (durNs 0 (vm : Int) (vs : Int) (vms : Int)) := by
  have hcolon_m : ':' ∉ m := not_mem_of_all_digits (by decide) hmd
  have hcolon_tail : ':' ∉ s ++ '.' :: ms := by
    intro hmem
    rcases List.mem_append.mp hmem with h1 | h1
    · exact not_mem_of_all_digits (by decide) hsd h1
    · rcases List.mem_cons.mp h1 with h2 | h2
      · exact absurd h2 (by decide)
      · exact not_mem_of_all_digits (by decide) hmsd h2
  have hdot_s : '.' ∉ s := not_mem_of_all_digits (by decide) hsd
  have hdot_ms : '.' ∉ ms := not_mem_of_all_digits (by decide) hmsd
  have hsplit1 : splitOnChar ':' (m ++ ':' :: (s ++ '.' :: ms)) =
      [m, s ++ '.' :: ms] := by
    rw [splitOnChar_append _ hcolon_m, splitOnChar_not_mem hcolon_tail]
  have hsplit2 : splitOnChar '.' (s ++ '.' :: ms) = [s, ms] := by
    rw [splitOnChar_append _ hdot_s, splitOnChar_not_mem hdot_ms]
  unfold parseTimestamp parseTimestampComponents
  rw [hsplit1]
  simp only [hsplit2, atoi_digits hm hmd hv1 hr1, atoi_digits hs hsd hv2 hr2,
    atoi_digits hms hmsd hv3 hr3]

/-- General acceptance on the three-component path. -/
theorem parseTimestamp_three {hh m s ms : Str} {vh vm vs vms : Nat}
    (hhn : hh ≠ []) (hm : m ≠ []) (hs : s ≠ []) (hms : ms ≠ [])
    (hhd : ∀ c ∈ hh, isDigit c = true) (hmd : ∀ c ∈ m, isDigit c = true)
    (hsd : ∀ c ∈ s, isDigit c = true) (hmsd : ∀ c ∈ ms, isDigit c = true)
    (hv0 : digitsValAux hh 0 = some vh) (hv1 : digitsValAux m 0 = some vm)
    (hv2 : digitsValAux s 0 = some vs) (hv3 : digitsValAux ms 0 = some vms)
    (hr0 : (vh : Int) ≤ int64Max) (hr1 : (vm : Int) ≤ int64Max)
    (hr2 : (vs : Int) ≤ int64Max) (hr3 : (vms : Int) ≤ int64Max) :
    parseTimestamp (hh ++ ':' :: (m ++ ':' :: (s ++ '.' :: ms))) =
      .ok (durNs (vh : Int) (vm : Int) (vs : Int) (vms : Int)) := by
  have hcolon_h : ':' ∉ hh := not_mem_of_all_digits (by decide) hhd
  have hcolon_m : ':' ∉ m := not_mem_of_all_digits (by decide) hmd
  have hcolon_tail : ':' ∉ s ++ '.' :: ms := by
    intro hmem
    rcases List.mem_append.mp hmem with h1 | h1
    · exact not_mem_of_all_digits (by decide) hsd h1
    · rcases List.mem_cons.mp h1 with h2 | h2
      · exact absurd h2 (by decide)
      · exact not_mem_of_all_digits (by decide) hmsd h2
  have hdot_s : '.' ∉ s := not_mem_of_all_digits (by decide) hsd
  have hdot_ms : '.' ∉ ms := not_mem_of_all_digits (by decide) hmsd
  have hsplit1 : splitOnChar ':' (hh ++ ':' :: (m ++ ':' :: (s ++ '.' :: ms))) =
      [hh, m, s ++ '.' :: ms] := by
    rw [splitOnChar_append _ hcolon_h, splitOnChar_append _ hcolon_m,
      splitOnChar_not_mem hcolon_tail]
  have hsplit2 : splitOnChar '.' (s ++ '.' :: ms) = [s, ms] := by
    rw [splitOnChar_append _ hdot_s, splitOnChar_not_mem hdot_ms]
  unfold parseTimestamp parseTimestampComponents
  rw [hsplit1]
  simp only [hsplit2, atoi_digits hhn hhd hv0 hr0, atoi_digits hm hmd hv1 hr1,
    atoi_digits hs hsd hv2 hr2, atoi_digits hms hmsd hv3 hr3]

/-! ## Claims -/

/-- Claim C1, counterexample: decoding the timestamp text `1:02.5` does
not fail; it succeeds with 62.005 seconds (62005000000 nanoseconds), read
as minutes 1, seconds 2, milliseconds 5. -/
theorem claim_C1_cex : parseTimestamp "1:02.5".data = .ok 62005000000 := by
  rfl

/-- Claim C1, amended: the timestamp decoder imposes no digit-count rule:
any nonempty digit sequences are accepted for minutes, seconds and
milliseconds (values fitting in `int64`), so `1:02.5` decodes successfully.
Exact digit counts appear only in the timestamp-line pattern used to tell
cue identifiers from timestamp lines, and that pattern indeed rejects a
line starting with `1:02.5`. -/
theorem claim_C1 :
    matchesTimestampLine "1:02.5 --> 00:00:04.000".data = false ∧
    ∀ (m s ms : Str) (vm vs vms : Nat), m ≠ [] → s ≠ [] → ms ≠ [] →
      (∀ c ∈ m, isDigit c = true) → (∀ c ∈ s, isDigit c = true) →
      (∀ c ∈ ms, isDigit c = true) →
      digitsValAux m 0 = some vm → digitsValAux s 0 = some vs →
      digitsValAux ms 0 = some vms →
      (vm : Int) ≤ int64Max → (vs : Int) ≤ int64Max → (vms : Int) ≤ int64Max →
      parseTimestamp (m ++ ':' :: (s ++ '.' :: ms)) =
        .ok (durNs (0 : Int) (vm : Int) (vs : Int) (vms : Int)) := by
  refine ⟨by decide, ?_⟩
  intro m s ms vm vs vms hm hs hms hmd hsd hmsd hv1 hv2 hv3 hr1 hr2 hr3
  exact parseTimestamp_two hm hs hms hmd hsd hmsd hv1 hv2 hv3 hr1 hr2 hr3

/-- Witness for claim C1's amended theorem at the claim's own input
`1:02.5`. -/
theorem claim_C1_w :
    parseTimestamp ("1".data ++ ':' :: ("02".data ++ '.' :: "5".data)) =
      .ok (durNs 0 1 2 5) :=
  claim_C1.2 "1".data "02".data "5".data 1 2 5 (by decide) (by decide)
    (by decide) (by decide) (by decide) (by decide) (by decide) (by decide)
    (by decide) (by decide) (by decide) (by decide)

/-- Claim C8, counterexample: decoding does not always compute the exact
formula value: for `2562048:00:00.000` the int64 duration arithmetic
overflows and the decoder returns a negative duration, different from the
exact `hours*3600` seconds. -/
theorem claim_C8_cex :
    parseTimestamp "2562048:00:00.000".data = .ok (-9223371273709551616) ∧
    exactNs (2562048, 0, 0, 0) ≠ -9223371273709551616 := by
  constructor
  · rfl
  · decide

/-- Claim C8, amended: `01:02:03.040` and `62:03.040` decode to the equal
duration 3723040000000 ns; in general a successful decode returns the
formula value hours*3600+minutes*60+seconds in seconds plus milliseconds
reduced into the signed 64-bit range by wraparound, hence any two texts
whose components denote the same exact instant decode to the same
duration (exactness without wraparound fails near the int64 limit). -/
theorem claim_C8 :
    (parseTimestamp "01:02:03.040".data = .ok 3723040000000 ∧
     parseTimestamp "62:03.040".data = .ok 3723040000000) ∧
    (∀ s p, parseTimestampComponents s = .ok p →
      parseTimestamp s = .ok (wrap64 (exactNs p))) ∧
    (∀ s1 s2 p1 p2, parseTimestampComponents s1 = .ok p1 →
      parseTimestampComponents s2 = .ok p2 → exactNs p1 = exactNs p2 →
      parseTimestamp s1 = parseTimestamp s2) := by
  have hwrap : ∀ s p, parseTimestampComponents s = .ok p →
      parseTimestamp s = .ok (wrap64 (exactNs p)) := by
    intro s p hp
    obtain ⟨a, b, c, d⟩ := p
    simp [parseTimestamp, hp, durNs_wrap]
  refine ⟨⟨by rfl, by rfl⟩, hwrap, ?_⟩
  intro s1 s2 p1 p2 h1 h2 hex
  rw [hwrap s1 p1 h1, hwrap s2 p2 h2, hex]

/-- Witness for claim C8 at the two instants of the claim. -/
theorem claim_C8_w :
    parseTimestamp "01:02:03.040".data = parseTimestamp "62:03.040".data :=
  claim_C8.2.2 "01:02:03.040".data "62:03.040".data (1, 2, 3, 40)
    (0, 62, 3, 40) (by rfl) (by rfl) (by decide)

/-- Claim C10, counterexample: components are not accepted regardless of
magnitude: a 20-digit minutes component exceeds the signed 64-bit range of
`strconv.Atoi` and the decode fails with the range error. -/
theorem claim_C10_cex :
    parseTimestamp "99999999999999999999:00.000".data = .error .atoiRange := by
  rfl

/-- Claim C10, amended: the decoder itself performs no range validation;
components are accepted as arbitrary integers as long as their value fits
the 64-bit signed `int` of `strconv.Atoi` (beyond that, a range error):
`00:99:99.999` decodes to 99*60+99 seconds plus 999 milliseconds, and the
digits after `.` are read as an integer millisecond count whatever their
number, so `.5` contributes 5 ms. -/
theorem claim_C10 :
    parseTimestamp "00:99:99.999".data = .ok 6039999000000 ∧
    parseTimestamp "00:00.5".data = .ok 5000000 ∧
    ∀ (hh m s ms : Str) (vh vm vs vms : Nat), hh ≠ [] → m ≠ [] → s ≠ [] →
      ms ≠ [] →
      (∀ c ∈ hh, isDigit c = true) → (∀ c ∈ m, isDigit c = true) →
      (∀ c ∈ s, isDigit c = true) → (∀ c ∈ ms, isDigit c = true) →
      digitsValAux hh 0 = some vh → digitsValAux m 0 = some vm →
      digitsValAux s 0 = some vs → digitsValAux ms 0 = some vms →
      (vh : Int) ≤ int64Max → (vm : Int) ≤ int64Max →
      (vs : Int) ≤ int64Max → (vms : Int) ≤ int64Max →
      parseTimestamp (hh ++ ':' :: (m ++ ':' :: (s ++ '.' :: ms))) =
        .ok (durNs (vh : Int) (vm : Int) (vs : Int) (vms : Int)) := by
  refine ⟨by rfl, by rfl, ?_⟩
  intro hh m s ms vh vm vs vms h0 h1 h2 h3 hd0 hd1 hd2 hd3 hv0 hv1 hv2 hv3
    hr0 hr1 hr2 hr3
  exact parseTimestamp_three h0 h1 h2 h3 hd0 hd1 hd2 hd3 hv0 hv1 hv2 hv3
    hr0 hr1 hr2 hr3

/-- Witness for claim C10's general conjunct at `00:99:99.999`. -/
theorem claim_C10_w :
    parseTimestamp ("00".data ++ ':' :: ("99".data ++ ':' ::
        ("99".data ++ '.' :: "999".data))) =
      .ok (durNs 0 99 99 999) :=
  claim_C10.2.2 "00".data "99".data "99".data "999".data 0 99 99 999
    (by decide) (by decide) (by decide) (by decide) (by decide) (by decide)
    (by decide) (by decide) (by decide) (by decide) (by decide) (by decide)
    (by decide) (by decide) (by decide) (by decide)

/-- Claim C4: parsing `WEBVTT`, a blank line, then `1`, the timestamp line
`00:00:01.000 --> 00:00:04.000` and `Hello world.` emits exactly one
block and no error: a cue with identifier `1`, start 1 s, end 4 s, empty
settings and a single anonymous voice with text `Hello world.`. -/
theorem claim_C4 :
    Parse ["WEBVTT".data, [], "1".data,
      "00:00:01.000 --> 00:00:04.000".data, "Hello world.".data] =
    [.ok (.cue
      { id := "1".data,
        startTime := 1000000000,
        endTime := 4000000000,
        settings := {},
        voices := [{ speaker := [], text := "Hello world.".data }] })] := by
  rfl

/-- Claim C5: any first line not starting with the literal `WEBVTT` makes
the parse sequence a single `missing WEBVTT header` error item with no
block; an input with no lines at all yields a single `empty input` error. -/
theorem claim_C5 :
    (∀ (header : Str) (rest : List Str),
      startsWithL header "WEBVTT".data = false →
      Parse (header :: rest) = [.error .missingHeader]) ∧
    Parse ([] : List Str) = [.error .emptyInput] := by
  constructor
  · intro header rest h
    simp [Parse, h]
  · rfl

/-- Witness for claim C5 on a one-line header-less input. -/
theorem claim_C5_w : Parse ["X".data] = [.error .missingHeader] :=
  claim_C5.1 "X".data [] (by rfl)

/-- Flushing a blank-free group followed by a blank line: the scanner
emits the group's item and continues with the remaining lines. -/
theorem scanBody_flush (g rest : List Str) :
    ∀ cur : List Str, ([] : Str) ∉ g →
    scanBody (g ++ ([] : Str) :: rest) cur =
      if cur ++ g = [] then scanBody rest []
      else emitBlock (cur ++ g) ++ scanBody rest [] := by
  induction g with
  | nil =>
    intro cur _
    simp [scanBody]
  | cons l g' ih =>
    intro cur h
    have hl : l ≠ [] := fun he => h (he ▸ List.mem_cons_self l g')
    have hg' : ([] : Str) ∉ g' := fun hm => h (List.mem_cons_of_mem l hm)
    rw [List.cons_append]
    simp only [scanBody, hl, if_false, ite_false]
    rw [ih (cur ++ [l]) hg',
      show (cur ++ [l]) ++ g' = cur ++ l :: g' by simp]

/-- Claim C6: a group that fails to parse is emitted as an error item and
the scanner continues with all subsequent lines unchanged. -/
theorem claim_C6 (header : Str) (g rest : List Str) (e : Err)
    (hh : startsWithL header "WEBVTT".data = true) (hg : g ≠ [])
    (hb : ([] : Str) ∉ g) (hpe : parseBlock g = some (.error e)) :
    Parse (header :: (g ++ ([] : Str) :: rest)) =
      .error e :: scanBody rest [] := by
  simp only [Parse, hh, if_true]
  rw [scanBody_flush g rest [] hb]
  simp [hg, emitBlock, hpe]

/-- Witness for claim C6: the malformed cue `1` (an identifier with no
timestamp line) is reported and the following group is still parsed. -/
theorem claim_C6_w :
    Parse ["WEBVTT".data, "1".data, ([] : Str),
        "00:00:01.000 --> 00:00:02.000".data] =
      .error .missingTimestampLine ::
        scanBody ["00:00:01.000 --> 00:00:02.000".data] [] := by
  simpa using claim_C6 "WEBVTT".data ["1".data]
    ["00:00:01.000 --> 00:00:02.000".data] .missingTimestampLine
    (by rfl) (by decide) (by decide) (by rfl)

theorem collectCues_ok (items : List (Except Err Block))
    (h : ∀ x ∈ items, isErr x = false) :
    collectCues items = .ok (cuesOf items) := by
  induction items with
  | nil => rfl
  | cons x rest ih =>
    cases x with
    | error e => exact absurd (h _ (List.mem_cons_self _ _)) (by simp [isErr])
    | ok b =>
      have hr := ih fun y hy => h y (List.mem_cons_of_mem _ hy)
      cases b with
      | cue c => simp [collectCues, hr, cuesOf]
      | note t => simp [collectCues, hr, cuesOf]
      | style t => simp [collectCues, hr, cuesOf]
      | region i s => simp [collectCues, hr, cuesOf]

theorem collectCues_err (e : Err) :
    ∀ (pre post : List (Except Err Block)), (∀ x ∈ pre, isErr x = false) →
    collectCues (pre ++ .error e :: post) = .error e := by
  intro pre
  induction pre with
  | nil => intro post _; rfl
  | cons x pre' ih =>
    intro post h
    cases x with
    | error e' => exact absurd (h _ (List.mem_cons_self _ _)) (by simp [isErr])
    | ok b =>
      have hr := ih post fun y hy => h y (List.mem_cons_of_mem _ hy)
      simp only [List.cons_append, collectCues, List.append_eq, hr]

/-- Claim C3: the whole-document operation returns either the ordered cue
blocks of the stream with no error (when the stream has no error item),
or the first error of the stream, with no cues at all. -/
theorem claim_C3 (input : List Str) :
    ((∀ x ∈ Parse input, isErr x = false) →
      ParseAll input = .ok (cuesOf (Parse input))) ∧
    (∀ pre e post, Parse input = pre ++ .error e :: post →
      (∀ x ∈ pre, isErr x = false) → ParseAll input = .error e) := by
  constructor
  · intro h
    exact collectCues_ok _ h
  · intro pre e post heq hpre
    unfold ParseAll
    rw [heq]
    exact collectCues_err e pre post hpre

/-- Witness for claim C3 on a header-less input whose stream is a single
error item. -/
theorem claim_C3_w : ParseAll ["X".data] = .error .missingHeader :=
  (claim_C3 ["X".data]).2 [] .missingHeader [] (by rfl)
    (by intro x hx; cases hx)

theorem startsWith_cons {s : Str} {p : Char} {ps : Str}
    (h : startsWithL s (p :: ps) = true) :
    ∃ t, s = p :: t ∧ startsWithL t ps = true := by
  cases s with
  | nil => simp [startsWithL] at h
  | cons c cs =>
    simp only [startsWithL, Bool.and_eq_true, decide_eq_true_eq] at h
    exact ⟨cs, by rw [h.1], h.2⟩

/-- Claim C9: a non-empty group whose first line starts with `NOTE`, is
exactly `STYLE`, or starts with `REGION`, always yields a block, never an
error; errors can only come from the cue path. -/
theorem claim_C9 (first : Str) (rest : List Str)
    (h : startsWithL first "NOTE".data = true ∨ first = "STYLE".data ∨
      startsWithL first "REGION".data = true) :
    ∃ b, parseBlock (first :: rest) = some (.ok b) := by
  rcases h with h | h | h
  · exact ⟨.note (noteText first rest), by simp [parseBlock, h]⟩
  · subst h
    refine ⟨.style (joinLines rest), ?_⟩
    have h1 : startsWithL "STYLE".data "NOTE".data = false := by decide
    simp [parseBlock, h1]
  · obtain ⟨t, rfl, -⟩ := @startsWith_cons first 'R' "EGION".data h
    have h1 : startsWithL ('R' :: t) "NOTE".data = false := by
      show startsWithL ('R' :: t) ('N' :: ['O', 'T', 'E']) = false
      simp [startsWithL]
    have h2 : ('R' :: t) ≠ "STYLE".data := by
      intro he
      have h3 : 'R' :: t = 'S' :: ['T', 'Y', 'L', 'E'] := he
      simp at h3
    exact ⟨parseRegion ('R' :: t) rest, by simp [parseBlock, h1, h2, h]⟩

/-- Witness for claim C9 on a one-line NOTE group. -/
theorem claim_C9_w : ∃ b, parseBlock ["NOTE hi".data] = some (.ok b) :=
  claim_C9 "NOTE hi".data [] (Or.inl (by rfl))

theorem appendToLast_length (vs : List Voice) (p : Str) :
    (appendToLast vs p).length = vs.length := by
  induction vs with
  | nil => rfl
  | cons v vs' ih =>
    cases vs' with
    | nil => rfl
    | cons w ws => simpa [appendToLast] using ih

theorem voicesPre_length (cs : Str) (m : VMatch) (le : Nat)
    (acc : List Voice) : acc.length ≤ (voicesPre cs m le acc).length := by
  simp only [voicesPre]
  split
  · split
    · rw [appendToLast_length]
    · split
      · simp
      · exact le_refl _
  · exact le_refl _

theorem voicesLoop_length (cs : Str) :
    ∀ (ms : List VMatch) (le : Nat) (acc : List Voice),
    acc.length + ms.length ≤ (voicesLoop cs ms le acc).length := by
  intro ms
  induction ms with
  | nil => intro le acc; simp [voicesLoop]
  | cons m rest ih =>
    intro le acc
    simp only [voicesLoop]
    split
    · refine le_trans ?_ (ih _ _)
      have := voicesPre_length cs m le acc
      simp only [List.length_append, List.length_cons, List.length_nil]
      omega
    · refine le_trans ?_ (ih _ _)
      have := voicesPre_length cs m le acc
      simp only [List.length_append, List.length_cons, List.length_nil]
      omega

theorem findTags_nil_of_no_match :
    ∀ (fuel : Nat) (s : Str) (pos : Nat),
    (∀ i, voiceMatchAt (List.drop i s) = none) →
    findVoiceTagsFuel fuel s pos = [] := by
  intro fuel
  induction fuel with
  | zero => intro s pos _; cases s <;> rfl
  | succ f ih =>
    intro s pos h
    cases s with
    | nil => rfl
    | cons c cs =>
      have h0 := h 0
      simp only [List.drop_zero] at h0
      simp only [findVoiceTagsFuel, h0]
      exact ih cs (pos + 1) fun i => by
        have := h (i + 1)
        simpa using this

/-- Claim C7: the voice extractor always returns a non-empty sequence;
and on a text where the voice-open pattern matches at no position, the
result is exactly one anonymous voice carrying the text verbatim. -/
theorem claim_C7 (text : Str) :
    parseVoices text ≠ [] ∧
    (findVoiceTags text 0 = [] →
      parseVoices text = [{ speaker := [], text := text }]) ∧
    ((∀ i, voiceMatchAt (List.drop i text) = none) →
      findVoiceTags text 0 = []) := by
  refine ⟨?_, ?_, ?_⟩
  · cases htag : findVoiceTags text 0 with
    | nil => simp [parseVoices, htag]
    | cons m ms =>
      intro hnil
      have hlen := voicesLoop_length text (m :: ms) 0 []
      rw [show parseVoices text = voicesLoop text (m :: ms) 0 [] from by
        simp [parseVoices, htag]] at hnil
      rw [hnil] at hlen
      simp at hlen
  · intro h
    simp [parseVoices, h]
  · intro h
    exact findTags_nil_of_no_match _ _ _ h

/-- Witness for claim C7 on a tag-free text. -/
theorem claim_C7_w :
    parseVoices "Hello".data = [{ speaker := [], text := "Hello".data }] :=
  (claim_C7 "Hello".data).2.1 (by rfl)

theorem appendToLast_append (acc : List Voice) (v : Voice) (p : Str) :
    appendToLast (acc ++ [v]) p =
      acc ++ [{ v with text := v.text ++ ' ' :: p }] := by
  induction acc with
  | nil => rfl
  | cons w ws ih =>
    cases ws with
    | nil => rfl
    | cons u us =>
      simp only [List.cons_append] at ih ⊢
      simp [appendToLast, ih]

theorem voicesPre_skip (cs : Str) (m : VMatch) (acc : List Voice) :
    voicesPre cs m m.mstart acc = acc := by
  simp [voicesPre]

theorem voicesPre_stray (cs : Str) (m : VMatch) (le : Nat)
    (acc : List Voice) (v : Voice) (p : Str) (hlt : le < m.mstart)
    (hp : trimSpace (sliceStr cs le m.mstart) = p) (hne : p ≠ []) :
    voicesPre cs m le (acc ++ [v]) =
      acc ++ [{ v with text := v.text ++ ' ' :: p }] := by
  simp only [voicesPre, hp, if_pos hlt]
  rw [if_pos (And.intro hne (by simp : acc ++ [v] ≠ []))]
  exact appendToLast_append acc v p

/-- Claim C2, counterexample: the content `stray` between Alice's closing
tag and Bob's opening tag does appear in a voice of the result: it is
appended to Alice's text. -/
theorem claim_C2_cex :
    parseVoices "<v Alice>Hi</v> stray <v Bob>Hello</v>".data =
      [{ speaker := "Alice".data, text := "Hi stray".data },
       { speaker := "Bob".data, text := "Hello".data }] := by
  rfl

/-- Claim C2, amended: content between a voice's closing tag and the next
voice-open marker is not discarded: when it is non-blank after trimming,
the extraction loop appends it, preceded by a single space, to the text of
the immediately preceding voice, and then continues unchanged from the
marker. -/
theorem claim_C2 (cs : Str) (m : VMatch) (rest : List VMatch) (le : Nat)
    (acc : List Voice) (v : Voice) (p : Str) (hlt : le < m.mstart)
    (hp : trimSpace (sliceStr cs le m.mstart) = p) (hne : p ≠ []) :
    voicesLoop cs (m :: rest) le (acc ++ [v]) =
      voicesLoop cs (m :: rest) m.mstart
        (acc ++ [{ v with text := v.text ++ ' ' :: p }]) := by
  simp only [voicesLoop]
  rw [voicesPre_stray cs m le acc v p hlt hp hne, voicesPre_skip]

/-- Witness for claim C2 at the counterexample text, with the loop resumed
after Alice's closing tag (position 15) and Bob's marker at 22-29. -/
theorem claim_C2_w :
    voicesLoop "<v Alice>Hi</v> stray <v Bob>Hello</v>".data
        [⟨22, 29, 25, 28⟩] 15
        ([] ++ [{ speaker := "Alice".data, text := "Hi".data }]) =
      voicesLoop "<v Alice>Hi</v> stray <v Bob>Hello</v>".data
        [⟨22, 29, 25, 28⟩] 22
        ([] ++ [{ speaker := "Alice".data, text := "Hi stray".data }]) :=
  claim_C2 "<v Alice>Hi</v> stray <v Bob>Hello</v>".data ⟨22, 29, 25, 28⟩
    [] 15 [] { speaker := "Alice".data, text := "Hi".data } "stray".data
    (by decide) (by rfl) (by decide)

end WebVTT
